import Mathlib

/-!
# Verification of the remote joint builder (`src/lib/remote.js`)

Shallow embedding of the relationship-joint builder.  JavaScript records are
modelled as association lists from field names to `Value`s (first occurrence
wins, as in JS object key order); the two external collections are modelled by
an `Env` that assigns an outcome (resolution value or rejection) to every
asynchronous collection operation, and every hook additionally returns the
ordered list of operations (`Op`) it issued, so that "issues a query", "no
collection access" and "advisory log" are expressible.  A hook that returns a
promise yields `Except JsErr _`; a hook that returns `undefined` (no promise)
yields `none` in an `Option (Except JsErr Value)`.

Field paths handed to the `object-path` utility are split on `.` as that
library does; plain bracket accesses (`record[field]`) in the source are
modelled as single-key accesses, exactly where the source uses them.
-/

set_option autoImplicit false

namespace AqueductJoint

/-- JavaScript runtime values, as far as the joint manipulates them. -/
inductive Value where
  | vNull
  | vUndefined
  | vBool (b : Bool)
  | vNum (n : Int)
  | vStr (s : String)
  | vObj (fields : List (String × Value))
  | vArr (elems : List Value)

namespace Value

/-- JavaScript truthiness (`NaN` is out of scope since numbers are `Int`). -/
def truthy : Value → Bool
  | vNull => false
  | vUndefined => false
  | vBool b => b
  | vNum n => n != 0
  | vStr s => s != ""
  | vObj _ => true
  | vArr _ => true

end Value

/-- A record is a JS object: ordered association list of fields. -/
abbrev Record := List (String × Value)

/-- Plain bracket read `record[k]`: value of the first binding of `k`,
`undefined` when absent. -/
def getField (r : Record) (k : String) : Value :=
  match r with
  | [] => .vUndefined
  | (k', v) :: rest => if k' = k then v else getField rest k

/-- Whether a field is present (with any value) on the record. -/
def hasField (r : Record) (k : String) : Bool :=
  match r with
  | [] => false
  | (k', _) :: rest => k' = k || hasField rest k

/-- Plain bracket assignment `record[k] = v`; replaces the first binding in
place, appends when absent (JS key-order semantics). -/
def setField (r : Record) (k : String) (v : Value) : Record :=
  match r with
  | [] => [(k, v)]
  | (k', v') :: rest =>
    if k' = k then (k, v) :: rest else (k', v') :: setField rest k v

/-- Bracket read on an arbitrary value: objects give their field, everything
else gives `undefined` (the joint only ever does this where JS would not
throw). -/
def vGet (v : Value) (k : String) : Value :=
  match v with
  | .vObj fs => getField fs k
  | _ => .vUndefined

/-- Split a character list on a separator character (`"a.b" ↦ ["a", "b"]`,
`"" ↦ [""]`). -/
def splitOnChar (c : Char) (cs : List Char) : List (List Char) :=
  match cs with
  | [] => [[]]
  | x :: xs =>
    let r := splitOnChar c xs
    if x = c then [] :: r
    else
      match r with
      | [] => [[x]]
      | y :: ys => (x :: y) :: ys

/-- The split object-path performs on a field path: on `.`, as `path.split('.')`
does for the joint's plain and dotted field names. -/
def splitOnDot (path : String) : List String :=
  (splitOnChar '.' path.data).map (fun cs => String.mk cs)

/-- Walk of `objectPath.get`: follow the remaining path segments, `undefined` as
soon as a segment is missing or the current value is not an object. -/
def getPathV (v : Value) : List String → Value
  | [] => v
  | k :: ks => getPathV (vGet v k) ks

/-- Model of `objectPath.get(record, path)`; the path is split on `.` as
object-path does (array-index segments are out of scope for this joint). -/
def opGet (r : Record) (path : String) : Value :=
  getPathV (.vObj r) (splitOnDot path)

/-- Walk of `objectPath.set`: rebuild the value along the path, treating a
non-object intermediate as an empty object (object-path creates missing
intermediates). -/
def setPathV (v : Value) (path : List String) (nv : Value) : Value :=
  match path with
  | [] => nv
  | k :: ks =>
    let fields : Record := match v with | .vObj fs => fs | _ => []
    .vObj (setField fields k (setPathV (vGet v k) ks nv))

/-- Model of `objectPath.set(record, path, value)` on a record. -/
def opSet (r : Record) (path : String) (nv : Value) : Record :=
  match splitOnDot path with
  | [] => r
  | k :: ks => setField r k (setPathV (getField r k) ks nv)

/-- JS `String(v)` coercion, used when the source concatenates a value into an
error message (array rendering approximated; never load-bearing). -/
def jsString : Value → String
  | .vNull => "null"
  | .vUndefined => "undefined"
  | .vBool b => if b then "true" else "false"
  | .vNum n => toString n
  | .vStr s => s
  | .vObj _ => "[object Object]"
  | .vArr _ => ""

/-- Whether a value is a JS string (`typeof v === 'string'`). -/
def Value.isStr : Value → Bool
  | .vStr _ => true
  | _ => false

/-- String content of a value known to be a string. -/
def Value.asStr : Value → String
  | .vStr s => s
  | _ => ""

/-- One step of the field-extraction fold: copy field `f` over when the
source record has it. -/
def extractStep (record : Record) (acc : Record) (f : String) : Record :=
  if hasField record f then setField acc f (getField record f) else acc

/-- Modelled from the spec: the field-extraction utility
(`src/lib/extractNamedFields.js`, not under `src/`): "given a record and a set
of field names, returns a mapping containing only those fields (pass-through
if absent)" — fields absent from the record are skipped. -/
def extractNamedFields (record : Record) (fields : List String) : Record :=
  fields.foldl (extractStep record) []

/-- Which of the two external collections an operation targets. -/
inductive Coll where
  | parentCollection
  | childCollection
  deriving DecidableEq, Repr

/-- Rejection reason of a JS promise / thrown error (its message). -/
abbrev JsErr := String

/-- The asynchronous collection operations (and the advisory log) a hook can
issue, with the exact arguments the source passes (per §6, `update`'s first
argument is the match criteria and its second the fields to set). -/
inductive Op where
  | update (c : Coll) (matchCriteria fieldsToSet : Value)
  | get (c : Coll) (query : Value)
  | find (c : Coll) (query : Value)
  | addOrUpdateChildInCollection (c : Coll) (matchCriteria : Value) (listName : String)
      (entry : Value) (entryKeyField : String)
  | removeChildFromCollection (c : Coll) (matchCriteria : Value) (listName : String)
      (entryKeyCriteria : Value)
  | consoleWarn (parentEntity : String) (lookupId : Value)

/-- Behaviour of the two external collections: the outcome (resolution value
or rejection) of each asynchronous operation.  Point lookups resolve to a
record or absent, multi-record lookups to a sequence of records (§6). -/
structure Env where
  get : Coll → Value → Except JsErr (Option Record)
  find : Coll → Value → Except JsErr (List Record)
  update : Coll → Value → Value → Except JsErr Value
  addOrUpdateChildInCollection : Coll → Value → String → Value → String → Except JsErr Value
  removeChildFromCollection : Coll → Value → String → Value → Except JsErr Value

/-- What a hook invocation observably does: the ordered operations it issues,
and its return value — `some r` when it returns a promise settling as `r`,
`none` when it returns `undefined` (no asynchronous result). -/
abbrev HookRet := List Op × Option (Except JsErr Value)

/-- The synchronous capability surface the joint reads off a collection. -/
structure Collection where
  getKeyField : String
  getLocalKeyField : String
  deriving DecidableEq, Repr

/-- The options object passed to `joint` (absent optional members are
`none`; the three entity/lookup options are raw values since the source
type-checks them). -/
structure Options where
  childEntity : Value
  parentEntity : Value
  lookupField : Value
  parentFieldName : String
  parentFields : Option (List String)
  parentCollection : Collection
  childCollection : Collection
  relatedListName : Option String
  relatedListFields : Option (List String)

/-- Truthiness of `options.relatedListName` (`if(relatedListName)`). -/
def Options.relatedActive (o : Options) : Bool :=
  match o.relatedListName with
  | some s => s != ""
  | none => false

/-- Modelled from the spec: the option-validation utility
(`src/lib/checkOptions.js`, not under `src/`): "verifies option combinations
(e.g., relatedListFields required when relatedListName is given) and fails
fast with a descriptive error"; §3 requires `relatedListFields` non-empty
when `relatedListName` is set. -/
def checkOptions (o : Options) : Except JsErr Unit :=
  if o.relatedActive && (o.relatedListFields.getD []).isEmpty then
    .error "relatedListFields must be provided when relatedListName is provided"
  else
    .ok ()

/-- The configuration closed over by every hook, after construction-time
normalization: `parentFields` / `relatedListFields` are the arrays *after*
the source pushes the respective local key field onto them (lines 53 and
112); `relatedListName` is `some` exactly when related-list maintenance is
active. -/
structure Cfg where
  childEntity : String
  parentEntity : String
  lookupField : String
  parentFieldName : String
  parentFields : List String
  parentKeyField : String
  parentLocalKeyField : String
  relatedListName : Option String
  relatedListFields : List String
  childLocalKeyField : String

/-- Configuration derived from validated options (lines 36-53 and 110-112). -/
def mkCfg (o : Options) : Cfg where
  childEntity := o.childEntity.asStr
  parentEntity := o.parentEntity.asStr
  lookupField := o.lookupField.asStr
  parentFieldName := o.parentFieldName
  parentFields := o.parentFields.getD [] ++ [o.parentCollection.getLocalKeyField]
  parentKeyField := o.parentCollection.getKeyField
  parentLocalKeyField := o.parentCollection.getLocalKeyField
  relatedListName := if o.relatedActive then o.relatedListName else none
  relatedListFields :=
    if o.relatedActive then o.relatedListFields.getD [] ++ [o.childCollection.getLocalKeyField]
    else o.relatedListFields.getD []
  childLocalKeyField := o.childCollection.getLocalKeyField

/-- Source lines 58-61, `j.onParentInserted` as first defined: issues
`childCollection.update({[parentFieldName]: extractNamedFields(parent,
parentFields)}, {[lookupField]: parent[parentKeyField]})` and returns
`undefined` — the update's promise is discarded, so the hook yields no
asynchronous result (`none`) whatever the update's outcome. -/
def onParentInsertedBase (cfg : Cfg) (_env : Env) (parent : Record) : HookRet :=
  ([.update .childCollection
      (.vObj [(cfg.parentFieldName, .vObj (extractNamedFields parent cfg.parentFields))])
      (.vObj [(cfg.lookupField, getField parent cfg.parentKeyField)])],
   none)

/-- Output of the wrapped cleanse transform on a record:
`Promise.resolve(cleanse ? cleanse(record) : record)` (line 65). -/
def cleansedOf (cleanse : Option (Record → Record)) (record : Record) : Record :=
  match cleanse with
  | some f => f record
  | none => record

/-- Output of the wrapped prepare transform on a record and action:
`Promise.resolve(prepare ? prepare(record, action) : record)` (line 82). -/
def preparedOf (prepare : Option (Record → Value → Record)) (record : Record)
    (action : Value) : Record :=
  match prepare with
  | some f => f record action
  | none => record

/-- Source lines 63-78, `j.enhanceCleanse`: run the wrapped cleanse (identity when
absent), return unchanged on a falsy foreign key, otherwise look the parent
up by external key; attach the extracted snapshot when found, warn and pass
through when not. -/
def enhanceCleanseFn (cfg : Cfg) (env : Env) (cleanse : Option (Record → Record))
    (record : Record) : List Op × Except JsErr Record :=
  let cleaned := cleansedOf cleanse record
  if !(opGet cleaned cfg.lookupField).truthy then
    ([], .ok cleaned)
  else
    let lookupId := opGet cleaned cfg.lookupField
    let q : Value := .vObj [(cfg.parentKeyField, lookupId)]
    match env.get .parentCollection q with
    | .error e => ([.get .parentCollection q], .error e)
    | .ok (some parent) =>
      ([.get .parentCollection q],
       .ok (setField cleaned cfg.parentFieldName (.vObj (extractNamedFields parent cfg.parentFields))))
    | .ok none =>
      ([.get .parentCollection q, .consoleWarn cfg.parentEntity lookupId], .ok cleaned)

/-- Source lines 80-104, `j.enhancePrepare`: run the wrapped prepare, pass through
when `prepared[parentFieldName]` is falsy; copy an already-present external
key from the snapshot into `lookupField`; otherwise look the parent up by
its local key and fail when it is missing or lacks an external id. -/
def enhancePrepareFn (cfg : Cfg) (env : Env) (prepare : Option (Record → Value → Record))
    (record : Record) (action : Value) : List Op × Except JsErr Record :=
  let prepared := preparedOf prepare record action
  if !(getField prepared cfg.parentFieldName).truthy then
    ([], .ok prepared)
  else if (vGet (getField prepared cfg.parentFieldName) cfg.parentKeyField).truthy then
    ([], .ok (opSet prepared cfg.lookupField
        (vGet (getField prepared cfg.parentFieldName) cfg.parentKeyField)))
  else
    let parentKey := vGet (getField prepared cfg.parentFieldName) cfg.parentLocalKeyField
    match env.get .parentCollection parentKey with
    | .error e => ([.get .parentCollection parentKey], .error e)
    | .ok none =>
      ([.get .parentCollection parentKey],
       .error ("Unable to locate parent id " ++ jsString parentKey))
    | .ok (some parent) =>
      if !(getField parent cfg.parentKeyField).truthy then
        ([.get .parentCollection parentKey],
         .error ("Parent " ++ jsString parentKey ++ " does not have an external id yet"))
      else
        ([.get .parentCollection parentKey],
         .ok (opSet prepared cfg.lookupField (getField parent cfg.parentKeyField)))

/-- Source lines 113-122, `j.onChildInserted` = `j.onChildUpdated` (defined only when
related-list maintenance is active): no-op returning `undefined` on a falsy
foreign key, otherwise upsert the extracted child summary into the parent's
related list and return that operation's promise. -/
def onChildInsertedFn (cfg : Cfg) (env : Env) (child : Record) : HookRet :=
  if (opGet child cfg.lookupField).truthy then
    let m : Value := .vObj [(cfg.parentKeyField, opGet child cfg.lookupField)]
    let entry : Value := .vObj (extractNamedFields child cfg.relatedListFields)
    ([.addOrUpdateChildInCollection .parentCollection m (cfg.relatedListName.getD "") entry
        cfg.childLocalKeyField],
     some (env.addOrUpdateChildInCollection .parentCollection m (cfg.relatedListName.getD "")
        entry cfg.childLocalKeyField))
  else
    ([], none)

/-- Source lines 123-130, `j.onChildRemoved` (defined only when related-list
maintenance is active): no-op returning `undefined` on a falsy foreign key,
otherwise remove the entry keyed by the child's local key from the parent's
related list and return that operation's promise. -/
def onChildRemovedFn (cfg : Cfg) (env : Env) (child : Record) : HookRet :=
  if (opGet child cfg.lookupField).truthy then
    let m : Value := .vObj [(cfg.parentKeyField, opGet child cfg.lookupField)]
    let crit : Value := .vObj [(cfg.childLocalKeyField, getField child cfg.childLocalKeyField)]
    ([.removeChildFromCollection .parentCollection m (cfg.relatedListName.getD "") crit],
     some (env.removeChildFromCollection .parentCollection m (cfg.relatedListName.getD "") crit))
  else
    ([], none)

/-- Source lines 131-142, `j.onParentInserted` as redefined when related-list
maintenance is active: first call `j.onParentUpdated(parent)` when present — its
return value (and hence any rejection of the child update it issues) is
discarded — then find all children by foreign key and, when any are found,
overwrite the parent's related list; the returned promise is exactly the
find/update chain.  The source's inner `if(relatedListName)` is always true
in this branch and is elided. -/
def onParentInsertedRelated (cfg : Cfg) (env : Env) (parent : Record) : HookRet :=
  let delegatedOps : List Op :=
    if cfg.parentFields.length > 1 then (onParentInsertedBase cfg env parent).1 else []
  let q : Value := .vObj [(cfg.lookupField, getField parent cfg.parentKeyField)]
  match env.find .childCollection q with
  | .error e => (delegatedOps ++ [.find .childCollection q], some (.error e))
  | .ok recs =>
    if recs.length > 0 then
      let children : Value := .vArr (recs.map (fun r => .vObj (extractNamedFields r cfg.relatedListFields)))
      let a1 : Value := .vObj [(cfg.relatedListName.getD "", children)]
      let a2 : Value := .vObj [(cfg.parentKeyField, getField parent cfg.parentKeyField)]
      (delegatedOps ++ [.find .childCollection q, .update .parentCollection a1 a2],
       some (env.update .parentCollection a1 a2))
    else
      (delegatedOps ++ [.find .childCollection q], some (.ok .vUndefined))

/-- The object `joint` returns: the exposed hooks (optional ones are `none`
when the source does not define them), plus the caller-visible contents of
the `parentFields` / `relatedListFields` arrays after construction — the
source aliases and pushes onto the caller's own arrays (lines 53, 112), so
these record the construction's effect on the options object. -/
structure Joint where
  childEntity : String
  parentEntity : String
  onParentInserted : Env → Record → HookRet
  onParentUpdated : Option (Env → Record → HookRet)
  enhanceCleanse : Option (Record → Record) → Env → Record → List Op × Except JsErr Record
  enhancePrepare : Option (Record → Value → Record) → Env → Record → Value → List Op × Except JsErr Record
  onChildInserted : Option (Env → Record → HookRet)
  onChildUpdated : Option (Env → Record → HookRet)
  onChildRemoved : Option (Env → Record → HookRet)
  finalParentFields : Option (List String)
  finalRelatedListFields : Option (List String)

/-- The joint object a successful construction returns (lines 54-144):
`onParentInserted` is the related-list redefinition exactly when related-list
maintenance is active, `onParentUpdated` is the *base* propagation function
and is present exactly when the pushed `parentFields` has more than one
entry (line 105), and the child hooks are present exactly when related-list
maintenance is active. -/
def jointObj (o : Options) : Joint :=
  let cfg := mkCfg o
  { childEntity := cfg.childEntity
    parentEntity := cfg.parentEntity
    onParentInserted :=
      if cfg.relatedListName.isSome then onParentInsertedRelated cfg
      else onParentInsertedBase cfg
    onParentUpdated :=
      if cfg.parentFields.length > 1 then some (onParentInsertedBase cfg) else none
    enhanceCleanse := fun c env r => enhanceCleanseFn cfg env c r
    enhancePrepare := fun p env r a => enhancePrepareFn cfg env p r a
    onChildInserted :=
      if cfg.relatedListName.isSome then some (onChildInsertedFn cfg) else none
    onChildUpdated :=
      if cfg.relatedListName.isSome then some (onChildInsertedFn cfg) else none
    onChildRemoved :=
      if cfg.relatedListName.isSome then some (onChildRemovedFn cfg) else none
    finalParentFields :=
      o.parentFields.map (fun a => a ++ [o.parentCollection.getLocalKeyField])
    finalRelatedListFields :=
      if o.relatedActive then
        o.relatedListFields.map (fun a => a ++ [o.childCollection.getLocalKeyField])
      else o.relatedListFields }

/-- Source lines 32-145, `module.exports = function joint(options)`.  Construction
throws on a non-string `childEntity` / `parentEntity` / `lookupField` (in
loop order), runs `checkOptions`, reads the collections' key-field getters,
and assembles the hook object; it issues no collection operation.  The
`final*Fields` components record the push side effects on the caller's
arrays. -/
def joint (o : Options) : Except JsErr Joint :=
  if !o.childEntity.isStr then
    .error ("Invalid option childEntity in joint config: " ++ jsString o.childEntity)
  else if !o.parentEntity.isStr then
    .error ("Invalid option parentEntity in joint config: " ++ jsString o.parentEntity)
  else if !o.lookupField.isStr then
    .error ("Invalid option lookupField in joint config: " ++ jsString o.lookupField)
  else
    match checkOptions o with
    | .error e => .error e
    | .ok () => .ok (jointObj o)

/-! ## Concrete fixtures (the spec's §8 scenario data) -/

/-- Parent collection: external key `extId`, local key `id`. -/
def exParentColl : Collection := { getKeyField := "extId", getLocalKeyField := "id" }

/-- Child collection: external key `childExtId`, local key `cid`. -/
def exChildColl : Collection := { getKeyField := "childExtId", getLocalKeyField := "cid" }

/-- A fully valid configuration with related-list maintenance active. -/
def exOptions : Options where
  childEntity := .vStr "Contact"
  parentEntity := .vStr "Account"
  lookupField := .vStr "fk"
  parentFieldName := "parent"
  parentFields := some ["name"]
  parentCollection := exParentColl
  childCollection := exChildColl
  relatedListName := some "subs"
  relatedListFields := some ["label"]

/-- The same configuration without related-list maintenance. -/
def exOptionsNoList : Options :=
  { exOptions with relatedListName := none, relatedListFields := none }

/-- No related list, and `parentFields` holding only the parent's local key
field itself. -/
def exOptionsKeyOnly : Options := { exOptionsNoList with parentFields := some ["id"] }

/-- Scenario parent `{id: "P1", extId: "EXT-1", name: "Acme"}`. -/
def exParent : Record := [("id", .vStr "P1"), ("extId", .vStr "EXT-1"), ("name", .vStr "Acme")]

/-- A parent not yet synchronized outward: no external id. -/
def exParentNoExt : Record := [("id", .vStr "P1"), ("name", .vStr "Acme")]

/-- Scenario child with foreign key `"EXT-1"`. -/
def exChild : Record :=
  [("cid", .vStr "C1"), ("fk", .vStr "EXT-1"), ("label", .vStr "child one")]

/-- A child whose embedded parent snapshot has the local key only. -/
def exSnapRec : Record := [("parent", .vObj [("id", .vStr "P1")])]

/-- A child whose embedded parent snapshot already carries the external key. -/
def exSnapExt : Record := [("parent", .vObj [("id", .vStr "P1"), ("extId", .vStr "EXT-1")])]

/-- Collections that resolve everything trivially: point lookups miss, finds
are empty, mutations resolve to `undefined`. -/
def env0 : Env where
  get := fun _ _ => .ok none
  find := fun _ _ => .ok []
  update := fun _ _ _ => .ok .vUndefined
  addOrUpdateChildInCollection := fun _ _ _ _ _ => .ok .vUndefined
  removeChildFromCollection := fun _ _ _ _ => .ok .vUndefined

/-- Like `env0` but `find` resolves to the one scenario child. -/
def envFindChild : Env := { env0 with find := fun _ _ => .ok [exChild] }

/-- Like `env0` but every `update` rejects. -/
def envRejectUpdate : Env := { env0 with update := fun _ _ _ => .error "update failed" }

/-- Like `env0` but point lookups resolve to the scenario parent. -/
def envParentFound : Env := { env0 with get := fun _ _ => .ok (some exParent) }

/-- Like `env0` but point lookups resolve to the parent without external id. -/
def envParentNoExt : Env := { env0 with get := fun _ _ => .ok (some exParentNoExt) }

/-- Like `env0` but every point lookup rejects. -/
def envGetReject : Env := { env0 with get := fun _ _ => .error "get failed" }

/-! ## Record-level lemmas -/

theorem getField_setField_self (r : Record) (k : String) (v : Value) :
    getField (setField r k v) k = v := by
  induction r with
  | nil => simp [setField, getField]
  | cons p rest ih =>
    obtain ⟨k', v'⟩ := p
    by_cases h : k' = k
    · subst h
      simp [setField, getField]
    · simp [setField, getField, h, ih]

theorem getField_setField_ne (r : Record) (k k' : String) (v : Value) (h : k' ≠ k) :
    getField (setField r k v) k' = getField r k' := by
  induction r with
  | nil => simp [setField, getField, Ne.symm h]
  | cons p rest ih =>
    obtain ⟨k₀, v₀⟩ := p
    by_cases h0 : k₀ = k
    · subst h0
      simp [setField, getField, Ne.symm h]
    · simp only [setField, if_neg h0]
      by_cases h1 : k₀ = k'
      · simp [getField, h1]
      · simp [getField, h1, ih]

theorem hasField_setField (r : Record) (k k' : String) (v : Value) :
    hasField (setField r k v) k' = (decide (k = k') || hasField r k') := by
  induction r with
  | nil => simp [setField, hasField]
  | cons p rest ih =>
    obtain ⟨k₀, v₀⟩ := p
    by_cases h0 : k₀ = k
    · subst h0
      by_cases h1 : k₀ = k' <;> simp [setField, hasField, h1]
    · simp only [setField, if_neg h0]
      by_cases h1 : k₀ = k'
      · simp [hasField, h1]
      · simp [hasField, h1, ih]

/-! ## Characterization of the extraction utility -/

theorem hasField_extractStep (record acc : Record) (f k : String) :
    hasField (extractStep record acc f) k = true ↔
      ((f = k ∧ hasField record k = true) ∨ hasField acc k = true) := by
  unfold extractStep
  by_cases hf : hasField record f = true
  · rw [if_pos hf, hasField_setField]
    by_cases hfk : f = k
    · subst hfk
      simp [hf]
    · simp [hfk]
  · rw [if_neg hf]
    by_cases hfk : f = k
    · subst hfk
      simp [hf]
    · simp [hfk]

theorem getField_extractStep_inv (record acc : Record) (f : String)
    (hacc : ∀ k, hasField acc k = true → getField acc k = getField record k) :
    ∀ k, hasField (extractStep record acc f) k = true →
      getField (extractStep record acc f) k = getField record k := by
  intro k hk
  unfold extractStep at *
  by_cases hf : hasField record f = true
  · rw [if_pos hf] at hk ⊢
    by_cases hfk : f = k
    · subst hfk
      rw [getField_setField_self]
    · rw [getField_setField_ne _ _ _ _ (fun hh => hfk (Eq.symm hh))]
      apply hacc
      rw [hasField_setField] at hk
      simpa [hfk] using hk
  · rw [if_neg hf] at hk ⊢
    exact hacc k hk

theorem hasField_extractFold (record : Record) (fields : List String) :
    ∀ (acc : Record) (k : String),
      hasField (List.foldl (extractStep record) acc fields) k = true ↔
        ((k ∈ fields ∧ hasField record k = true) ∨ hasField acc k = true) := by
  induction fields with
  | nil => intro acc k; simp
  | cons f fs ih =>
    intro acc k
    rw [List.foldl_cons, ih, hasField_extractStep]
    simp only [List.mem_cons]
    constructor
    · rintro (⟨hm, hr⟩ | (⟨he, hr⟩ | ha))
      · exact Or.inl ⟨Or.inr hm, hr⟩
      · exact Or.inl ⟨Or.inl (Eq.symm he), hr⟩
      · exact Or.inr ha
    · rintro (⟨(he | hm), hr⟩ | ha)
      · exact Or.inr (Or.inl ⟨Eq.symm he, hr⟩)
      · exact Or.inl ⟨hm, hr⟩
      · exact Or.inr (Or.inr ha)

theorem getField_extractFold (record : Record) (fields : List String) :
    ∀ (acc : Record),
      (∀ k, hasField acc k = true → getField acc k = getField record k) →
      ∀ k, hasField (List.foldl (extractStep record) acc fields) k = true →
        getField (List.foldl (extractStep record) acc fields) k = getField record k := by
  induction fields with
  | nil => intro acc hacc; exact hacc
  | cons f fs ih =>
    intro acc hacc
    simp only [List.foldl_cons]
    exact ih (extractStep record acc f) (getField_extractStep_inv record acc f hacc)

/-- The extracted mapping holds a field exactly when it was requested and the
source record has it. -/
theorem hasField_extractNamedFields (record : Record) (fields : List String) (k : String) :
    hasField (extractNamedFields record fields) k = true ↔
      (k ∈ fields ∧ hasField record k = true) := by
  unfold extractNamedFields
  rw [hasField_extractFold]
  simp [hasField]

/-- Every field of the extracted mapping carries the source record's value. -/
theorem getField_extractNamedFields (record : Record) (fields : List String) (k : String)
    (hk : hasField (extractNamedFields record fields) k = true) :
    getField (extractNamedFields record fields) k = getField record k := by
  unfold extractNamedFields at hk ⊢
  exact getField_extractFold record fields [] (by intro k' hk'; cases hk') k hk

/-! ## Bridge lemmas -/

/-- The configuration records related-list maintenance exactly when the
option is truthy. -/
theorem mkCfg_relatedListName_isSome (o : Options) :
    (mkCfg o).relatedListName.isSome = o.relatedActive := by
  show (if o.relatedActive then o.relatedListName else none).isSome = o.relatedActive
  cases h : o.relatedActive with
  | false => simp
  | true =>
    rw [if_pos rfl]
    unfold Options.relatedActive at h
    cases hr : o.relatedListName with
    | none => rw [hr] at h; cases h
    | some s => simp

/-- A successful construction returns exactly the hook object `jointObj`. -/
theorem joint_ok_eq (o : Options) (j : Joint) (hj : joint o = .ok j) : j = jointObj o := by
  unfold joint at hj
  by_cases h1 : o.childEntity.isStr = true
  · rw [h1] at hj
    by_cases h2 : o.parentEntity.isStr = true
    · rw [h2] at hj
      by_cases h3 : o.lookupField.isStr = true
      · rw [h3] at hj
        simp only [Bool.not_true, Bool.false_eq_true, if_false] at hj
        cases hc : checkOptions o with
        | error e => rw [hc] at hj; cases hj
        | ok u => cases u; rw [hc] at hj; cases hj; rfl
      · simp only [Bool.not_eq_true] at h3
        rw [h3] at hj
        simp at hj
    · simp only [Bool.not_eq_true] at h2
      rw [h2] at hj
      simp at hj
  · simp only [Bool.not_eq_true] at h1
    rw [h1] at hj
    simp at hj

/-- First segment of an `object-path` path: the only top-level record field a
path write can touch. -/
def pathHead (path : String) : String :=
  (splitOnDot path).headD ""

/-- A path write leaves every other top-level field unchanged. -/
theorem getField_opSet_ne (r : Record) (path : String) (v : Value) (k : String)
    (h : k ≠ pathHead path) :
    getField (opSet r path v) k = getField r k := by
  unfold opSet
  unfold pathHead at h
  cases hs : splitOnDot path with
  | nil => rfl
  | cons k0 ks =>
    rw [hs] at h
    exact getField_setField_ne _ _ _ _ (by simpa using h)

/-- The JS falsy values expressible in the model: empty string, `0`, `false`,
`null`, `undefined`. -/
def falsyValues : List Value := [.vStr "", .vNum 0, .vBool false, .vNull, .vUndefined]

theorem truthy_eq_false_of_mem_falsyValues (v : Value) (h : v ∈ falsyValues) :
    v.truthy = false := by
  simp only [falsyValues, List.mem_cons, List.mem_singleton, List.not_mem_nil, or_false] at h
  rcases h with h | h | h | h | h <;> subst h <;> rfl

/-! ## Claims -/

/-- C4: for every record whose value at `parentFieldName` is present (truthy)
but whose embedded snapshot lacks (is falsy at) the parent's external-key
field, the enhanced prepare looks the parent up by the local key taken from
the snapshot, and — the lookup itself resolving — fails exactly when no
parent is found or the found parent has no external key; on success it sets
`lookupField` to the parent's external key. -/
theorem C4_prepare_local_lookup (o : Options) (j : Joint) (env : Env)
    (prepare : Option (Record → Value → Record)) (record : Record) (action : Value)
    (res : Option Record)
    (hj : joint o = .ok j)
    (h1 : (getField (preparedOf prepare record action) (mkCfg o).parentFieldName).truthy = true)
    (h2 : (vGet (getField (preparedOf prepare record action) (mkCfg o).parentFieldName)
        (mkCfg o).parentKeyField).truthy = false)
    (hres : env.get .parentCollection
        (vGet (getField (preparedOf prepare record action) (mkCfg o).parentFieldName)
          (mkCfg o).parentLocalKeyField) = .ok res) :
    (j.enhancePrepare prepare env record action).1 =
      [.get .parentCollection
        (vGet (getField (preparedOf prepare record action) (mkCfg o).parentFieldName)
          (mkCfg o).parentLocalKeyField)] ∧
    ((∃ e, (j.enhancePrepare prepare env record action).2 = .error e) ↔
      (res = none ∨ ∃ p, res = some p ∧ (getField p (mkCfg o).parentKeyField).truthy = false)) ∧
    (∀ p, res = some p → (getField p (mkCfg o).parentKeyField).truthy = true →
      (j.enhancePrepare prepare env record action).2 =
        .ok (opSet (preparedOf prepare record action) (mkCfg o).lookupField
          (getField p (mkCfg o).parentKeyField))) := by
  have hjo := joint_ok_eq o j hj
  subst hjo
  have he : (jointObj o).enhancePrepare prepare env record action =
      enhancePrepareFn (mkCfg o) env prepare record action := rfl
  rw [he]
  unfold enhancePrepareFn
  simp only [h1, Bool.not_true, Bool.false_eq_true, if_false, h2, hres]
  cases res with
  | none => simp
  | some p =>
    cases hp : (getField p (mkCfg o).parentKeyField).truthy with
    | false => simp [hp]
    | true => simp [hp]

/-- C5: a foreign key that resolves to no parent is a soft miss for the
enhanced cleanse: no failure is raised, the result is exactly the wrapped
transform's output (no snapshot attached), and the only operations are the
lookup and the advisory `console.warn`. -/
theorem C5_cleanse_soft_miss (o : Options) (j : Joint) (env : Env)
    (cleanse : Option (Record → Record)) (record : Record)
    (hj : joint o = .ok j)
    (htr : (opGet (cleansedOf cleanse record) (mkCfg o).lookupField).truthy = true)
    (hmiss : env.get .parentCollection
        (.vObj [((mkCfg o).parentKeyField,
          opGet (cleansedOf cleanse record) (mkCfg o).lookupField)]) = .ok none) :
    j.enhanceCleanse cleanse env record =
      ([.get .parentCollection
          (.vObj [((mkCfg o).parentKeyField,
            opGet (cleansedOf cleanse record) (mkCfg o).lookupField)]),
        .consoleWarn (mkCfg o).parentEntity
          (opGet (cleansedOf cleanse record) (mkCfg o).lookupField)],
       .ok (cleansedOf cleanse record)) := by
  have hjo := joint_ok_eq o j hj
  subst hjo
  show enhanceCleanseFn (mkCfg o) env cleanse record = _
  unfold enhanceCleanseFn
  simp only [htr, Bool.not_true, Bool.false_eq_true, if_false, hmiss]

/-- C6: a foreign key that resolves to an existing parent makes the enhanced
cleanse attach, at `parentFieldName`, exactly the projection of that parent
onto the configured `parentFields` plus the parent collection's local-key
field: every field of the snapshot is a requested field present on the
parent, with the parent's value, and no other field is present. -/
theorem C6_cleanse_projection (o : Options) (j : Joint) (env : Env)
    (cleanse : Option (Record → Record)) (record : Record) (parent : Record)
    (hj : joint o = .ok j)
    (htr : (opGet (cleansedOf cleanse record) (mkCfg o).lookupField).truthy = true)
    (hfound : env.get .parentCollection
        (.vObj [((mkCfg o).parentKeyField,
          opGet (cleansedOf cleanse record) (mkCfg o).lookupField)]) = .ok (some parent)) :
    (j.enhanceCleanse cleanse env record).2 =
      .ok (setField (cleansedOf cleanse record) (mkCfg o).parentFieldName
        (.vObj (extractNamedFields parent
          (o.parentFields.getD [] ++ [o.parentCollection.getLocalKeyField])))) ∧
    (∀ out, (j.enhanceCleanse cleanse env record).2 = .ok out →
      getField out (mkCfg o).parentFieldName =
        .vObj (extractNamedFields parent
          (o.parentFields.getD [] ++ [o.parentCollection.getLocalKeyField]))) ∧
    (∀ k, hasField (extractNamedFields parent
        (o.parentFields.getD [] ++ [o.parentCollection.getLocalKeyField])) k = true ↔
      (k ∈ o.parentFields.getD [] ++ [o.parentCollection.getLocalKeyField] ∧
        hasField parent k = true)) ∧
    (∀ k, hasField (extractNamedFields parent
        (o.parentFields.getD [] ++ [o.parentCollection.getLocalKeyField])) k = true →
      getField (extractNamedFields parent
        (o.parentFields.getD [] ++ [o.parentCollection.getLocalKeyField])) k =
        getField parent k) := by
  have hjo := joint_ok_eq o j hj
  subst hjo
  have hfields : (mkCfg o).parentFields =
      o.parentFields.getD [] ++ [o.parentCollection.getLocalKeyField] := rfl
  have hmain : ((jointObj o).enhanceCleanse cleanse env record).2 =
      .ok (setField (cleansedOf cleanse record) (mkCfg o).parentFieldName
        (.vObj (extractNamedFields parent
          (o.parentFields.getD [] ++ [o.parentCollection.getLocalKeyField])))) := by
    show (enhanceCleanseFn (mkCfg o) env cleanse record).2 = _
    unfold enhanceCleanseFn
    simp only [htr, Bool.not_true, Bool.false_eq_true, if_false, hfound]
    rw [hfields]
  refine ⟨hmain, ?_, ?_, ?_⟩
  · intro out hout
    rw [hmain] at hout
    cases hout
    exact getField_setField_self _ _ _
  · intro k
    exact hasField_extractNamedFields parent _ k
  · intro k hk
    exact getField_extractNamedFields parent _ k hk

/-- C7: when the embedded snapshot already carries a (truthy) external key,
the enhanced prepare copies that value verbatim into `lookupField` and
issues no collection operation at all. -/
theorem C7_prepare_fast_path (o : Options) (j : Joint) (env : Env)
    (prepare : Option (Record → Value → Record)) (record : Record) (action : Value)
    (hj : joint o = .ok j)
    (h1 : (getField (preparedOf prepare record action) (mkCfg o).parentFieldName).truthy = true)
    (h2 : (vGet (getField (preparedOf prepare record action) (mkCfg o).parentFieldName)
        (mkCfg o).parentKeyField).truthy = true) :
    j.enhancePrepare prepare env record action =
      ([], .ok (opSet (preparedOf prepare record action) (mkCfg o).lookupField
        (vGet (getField (preparedOf prepare record action) (mkCfg o).parentFieldName)
          (mkCfg o).parentKeyField))) := by
  have hjo := joint_ok_eq o j hj
  subst hjo
  show enhancePrepareFn (mkCfg o) env prepare record action = _
  unfold enhancePrepareFn
  simp only [h1, Bool.not_true, Bool.false_eq_true, if_false, h2, if_true]

/-- Witness for C4: a record whose snapshot holds only the local key `"P1"`,
against a collection resolving to a parent without external id — the lookup
is issued with the raw local key and the transform fails. -/
theorem C4_witness :
    ((jointObj exOptionsNoList).enhancePrepare none envParentNoExt exSnapRec .vNull).1 =
      [.get .parentCollection (.vStr "P1")] ∧
    (∃ e, ((jointObj exOptionsNoList).enhancePrepare none envParentNoExt
        exSnapRec .vNull).2 = .error e) :=
  ⟨(C4_prepare_local_lookup exOptionsNoList (jointObj exOptionsNoList) envParentNoExt none
      exSnapRec .vNull (some exParentNoExt) rfl rfl rfl rfl).1,
   (C4_prepare_local_lookup exOptionsNoList (jointObj exOptionsNoList) envParentNoExt none
      exSnapRec .vNull (some exParentNoExt) rfl rfl rfl rfl).2.1.mpr
     (Or.inr ⟨exParentNoExt, rfl, rfl⟩)⟩

/-- Witness for C5: the scenario child against collections whose point lookup
misses — the hook resolves to the unchanged record after the lookup and the
advisory warn. -/
theorem C5_witness :
    (jointObj exOptions).enhanceCleanse none env0 exChild =
      ([.get .parentCollection (.vObj [("extId", .vStr "EXT-1")]),
        .consoleWarn "Account" (.vStr "EXT-1")], .ok exChild) :=
  C5_cleanse_soft_miss exOptions (jointObj exOptions) env0 none exChild rfl rfl rfl

/-- Witness for C6: the scenario child against a collection resolving to the
scenario parent — the output gains the `{name, id}` snapshot. -/
theorem C6_witness :
    ((jointObj exOptions).enhanceCleanse none envParentFound exChild).2 =
      .ok (setField exChild "parent"
        (.vObj (extractNamedFields exParent ["name", "id"]))) :=
  (C6_cleanse_projection exOptions (jointObj exOptions) envParentFound none exChild exParent
    rfl rfl rfl).1

/-- Witness for C7: a record whose snapshot already has `extId` — the value is
copied into `fk` with no operation issued. -/
theorem C7_witness :
    (jointObj exOptionsNoList).enhancePrepare none env0 exSnapExt .vNull =
      ([], .ok (opSet exSnapExt "fk" (.vStr "EXT-1"))) :=
  C7_prepare_fast_path exOptionsNoList (jointObj exOptionsNoList) env0 none exSnapExt .vNull
    rfl rfl rfl

/-- C9: every falsy foreign-key value (empty string, 0, false, null,
undefined) is treated as absent at the public interface: the enhanced
cleanse resolves to the wrapped transform's output with no lookup issued,
and the child hooks (exposed when related-list maintenance is configured)
issue no collection operation and return `undefined`. -/
theorem C9_falsy_treated_absent (o : Options) (j : Joint) (env : Env)
    (cleanse : Option (Record → Record)) (record : Record) (child : Record)
    (hj : joint o = .ok j)
    (hfk1 : opGet (cleansedOf cleanse record) (mkCfg o).lookupField ∈ falsyValues)
    (hfk2 : opGet child (mkCfg o).lookupField ∈ falsyValues) :
    j.enhanceCleanse cleanse env record = ([], .ok (cleansedOf cleanse record)) ∧
    (∀ f, j.onChildInserted = some f → f env child = ([], none)) ∧
    (∀ f, j.onChildUpdated = some f → f env child = ([], none)) ∧
    (∀ f, j.onChildRemoved = some f → f env child = ([], none)) := by
  have hjo := joint_ok_eq o j hj
  subst hjo
  have ht1 := truthy_eq_false_of_mem_falsyValues _ hfk1
  have ht2 := truthy_eq_false_of_mem_falsyValues _ hfk2
  refine ⟨?_, ?_, ?_, ?_⟩
  · have he : (jointObj o).enhanceCleanse cleanse env record =
        enhanceCleanseFn (mkCfg o) env cleanse record := rfl
    rw [he]
    unfold enhanceCleanseFn
    simp only [ht1, Bool.not_false, if_true]
  · intro f hf
    have he : (jointObj o).onChildInserted =
        (if (mkCfg o).relatedListName.isSome then some (onChildInsertedFn (mkCfg o))
         else none) := rfl
    rw [he] at hf
    by_cases hrel : (mkCfg o).relatedListName.isSome
    · rw [if_pos hrel] at hf
      cases hf
      unfold onChildInsertedFn
      simp only [ht2, Bool.false_eq_true, if_false]
    · rw [if_neg hrel] at hf
      cases hf
  · intro f hf
    have he : (jointObj o).onChildUpdated =
        (if (mkCfg o).relatedListName.isSome then some (onChildInsertedFn (mkCfg o))
         else none) := rfl
    rw [he] at hf
    by_cases hrel : (mkCfg o).relatedListName.isSome
    · rw [if_pos hrel] at hf
      cases hf
      unfold onChildInsertedFn
      simp only [ht2, Bool.false_eq_true, if_false]
    · rw [if_neg hrel] at hf
      cases hf
  · intro f hf
    have he : (jointObj o).onChildRemoved =
        (if (mkCfg o).relatedListName.isSome then some (onChildRemovedFn (mkCfg o))
         else none) := rfl
    rw [he] at hf
    by_cases hrel : (mkCfg o).relatedListName.isSome
    · rw [if_pos hrel] at hf
      cases hf
      unfold onChildRemovedFn
      simp only [ht2, Bool.false_eq_true, if_false]
    · rw [if_neg hrel] at hf
      cases hf

/-- Witness for C9: the empty-string foreign key on an otherwise populated
child — cleanse passes it through untouched and `onChildInserted` no-ops. -/
theorem C9_witness :
    (let childNoFk : Record := [("cid", .vStr "C1"), ("fk", .vStr "")]
     (jointObj exOptions).enhanceCleanse none env0 childNoFk = ([], .ok childNoFk) ∧
     (∀ f, (jointObj exOptions).onChildInserted = some f →
        f env0 childNoFk = ([], none))) :=
  ⟨(C9_falsy_treated_absent exOptions (jointObj exOptions) env0 none
      [("cid", .vStr "C1"), ("fk", .vStr "")] [("cid", .vStr "C1"), ("fk", .vStr "")]
      rfl (by simp [falsyValues, cleansedOf, opGet, splitOnDot, splitOnChar, getPathV, vGet, getField])
      (by simp [falsyValues, opGet, splitOnDot, splitOnChar, getPathV, vGet, getField])).1,
   (C9_falsy_treated_absent exOptions (jointObj exOptions) env0 none
      [("cid", .vStr "C1"), ("fk", .vStr "")] [("cid", .vStr "C1"), ("fk", .vStr "")]
      rfl (by simp [falsyValues, cleansedOf, opGet, splitOnDot, splitOnChar, getPathV, vGet, getField])
      (by simp [falsyValues, opGet, splitOnDot, splitOnChar, getPathV, vGet, getField])).2.1⟩

/-- C10: the enhanced transforms only touch their own field — modelling the
in-place mutation extensionally, a resolved cleanse output is the wrapped
output itself or the wrapped output with (only) `parentFieldName` rebound,
and a resolved prepare output likewise for (the head segment of)
`lookupField`; every other field is unchanged. -/
theorem C10_transform_frame (o : Options) (j : Joint) (env : Env)
    (cleanse : Option (Record → Record)) (prepare : Option (Record → Value → Record))
    (record : Record) (action : Value)
    (hj : joint o = .ok j) :
    (∀ out, (j.enhanceCleanse cleanse env record).2 = .ok out →
      (out = cleansedOf cleanse record ∨
        ∃ v, out = setField (cleansedOf cleanse record) (mkCfg o).parentFieldName v) ∧
      ∀ k, k ≠ (mkCfg o).parentFieldName →
        getField out k = getField (cleansedOf cleanse record) k) ∧
    (∀ out, (j.enhancePrepare prepare env record action).2 = .ok out →
      (out = preparedOf prepare record action ∨
        ∃ v, out = opSet (preparedOf prepare record action) (mkCfg o).lookupField v) ∧
      ∀ k, k ≠ pathHead (mkCfg o).lookupField →
        getField out k = getField (preparedOf prepare record action) k) := by
  have hjo := joint_ok_eq o j hj
  subst hjo
  constructor
  · intro out hout
    have he : (jointObj o).enhanceCleanse cleanse env record =
        enhanceCleanseFn (mkCfg o) env cleanse record := rfl
    rw [he] at hout
    unfold enhanceCleanseFn at hout
    by_cases ht : (opGet (cleansedOf cleanse record) (mkCfg o).lookupField).truthy = true
    · simp only [ht, Bool.not_true, Bool.false_eq_true, if_false] at hout
      cases hg : env.get Coll.parentCollection
          (.vObj [((mkCfg o).parentKeyField,
            opGet (cleansedOf cleanse record) (mkCfg o).lookupField)]) with
      | error e =>
        rw [hg] at hout
        cases hout
      | ok res =>
        rw [hg] at hout
        cases res with
        | none =>
          simp only [Except.ok.injEq] at hout
          subst hout
          exact ⟨Or.inl rfl, fun k _ => rfl⟩
        | some p =>
          simp only [Except.ok.injEq] at hout
          subst hout
          exact ⟨Or.inr ⟨_, rfl⟩, fun k hk => getField_setField_ne _ _ _ _ hk⟩
    · simp only [Bool.not_eq_true] at ht
      simp only [ht, Bool.not_false, if_true, Except.ok.injEq] at hout
      subst hout
      exact ⟨Or.inl rfl, fun k _ => rfl⟩
  · intro out hout
    have he : (jointObj o).enhancePrepare prepare env record action =
        enhancePrepareFn (mkCfg o) env prepare record action := rfl
    rw [he] at hout
    unfold enhancePrepareFn at hout
    by_cases h1 : (getField (preparedOf prepare record action)
        (mkCfg o).parentFieldName).truthy = true
    · simp only [h1, Bool.not_true, Bool.false_eq_true, if_false] at hout
      by_cases h2 : (vGet (getField (preparedOf prepare record action)
          (mkCfg o).parentFieldName) (mkCfg o).parentKeyField).truthy = true
      · simp only [h2, if_true, Except.ok.injEq] at hout
        subst hout
        exact ⟨Or.inr ⟨_, rfl⟩, fun k hk => getField_opSet_ne _ _ _ _ hk⟩
      · simp only [h2, Bool.false_eq_true, if_false] at hout
        cases hg : env.get Coll.parentCollection
            (vGet (getField (preparedOf prepare record action)
              (mkCfg o).parentFieldName) (mkCfg o).parentLocalKeyField) with
        | error e =>
          rw [hg] at hout
          cases hout
        | ok res =>
          rw [hg] at hout
          cases res with
          | none => cases hout
          | some p =>
            by_cases hp : (getField p (mkCfg o).parentKeyField).truthy = true
            · simp only [hp, Bool.not_true, Bool.false_eq_true, if_false,
                Except.ok.injEq] at hout
              subst hout
              exact ⟨Or.inr ⟨_, rfl⟩, fun k hk => getField_opSet_ne _ _ _ _ hk⟩
            · simp only [Bool.not_eq_true] at hp
              simp only [hp, Bool.not_false, if_true] at hout
              cases hout
    · simp only [Bool.not_eq_true] at h1
      simp only [h1, Bool.not_false, if_true, Except.ok.injEq] at hout
      subst hout
      exact ⟨Or.inl rfl, fun k _ => rfl⟩

/-- Witness for C10: the soft-miss cleanse on the scenario child leaves every
field as the wrapped output's. -/
theorem C10_witness :
    getField exChild "label" = getField (cleansedOf none exChild) "label" :=
  ((C10_transform_frame exOptions (jointObj exOptions) env0 none none exChild .vNull
      rfl).1 exChild rfl).2 "label" (by decide)

/-- C8 counterexample: with caller-supplied `parentFields = ["id"]` — exactly
the parent collection's local-key field and nothing else — the source's
`parentFields.length > 1` test (the pushed array is `["id", "id"]`) exposes
`onParentUpdated`, although the configured set contains no field other than
the local-key field; the claimed iff fails. -/
theorem C8_counterexample :
    (joint exOptionsKeyOnly).map (fun j => j.onParentUpdated.isSome) = .ok true ∧
    (exOptionsKeyOnly.parentFields.getD []).all
      (fun f => f == exOptionsKeyOnly.parentCollection.getLocalKeyField) = true :=
  ⟨rfl, rfl⟩

/-- C8 (amended): `onParentUpdated` is exposed iff the caller-supplied
`parentFields` array is non-empty — i.e. iff the pushed array has more than
one entry, regardless of whether any entry differs from the parent's
local-key field — and, when exposed, it is the base propagation function,
the same function `onParentInserted` is when related-list maintenance is
off. -/
theorem C8_onParentUpdated_exposure (o : Options) (j : Joint) (hj : joint o = .ok j) :
    (j.onParentUpdated.isSome = true ↔ o.parentFields.getD [] ≠ []) ∧
    (∀ f, j.onParentUpdated = some f → f = onParentInsertedBase (mkCfg o)) ∧
    ((mkCfg o).relatedListName.isSome = false →
      j.onParentInserted = onParentInsertedBase (mkCfg o)) := by
  have hjo := joint_ok_eq o j hj
  subst hjo
  have hup : (jointObj o).onParentUpdated =
      (if (mkCfg o).parentFields.length > 1 then some (onParentInsertedBase (mkCfg o))
       else none) := rfl
  have hlen : (mkCfg o).parentFields.length = (o.parentFields.getD []).length + 1 := by
    show (o.parentFields.getD [] ++ [o.parentCollection.getLocalKeyField]).length = _
    simp
  refine ⟨?_, ?_, ?_⟩
  · rw [hup]
    by_cases h : (mkCfg o).parentFields.length > 1
    · rw [if_pos h]
      simp only [Option.isSome_some, true_iff]
      rw [hlen] at h
      intro hnil
      rw [hnil] at h
      simp at h
    · rw [if_neg h]
      simp only [Option.isSome_none, Bool.false_eq_true, false_iff, ne_eq, not_not]
      rw [hlen] at h
      cases hc : o.parentFields.getD [] with
      | nil => rfl
      | cons a l => rw [hc] at h; simp at h
  · intro f hf
    rw [hup] at hf
    by_cases h : (mkCfg o).parentFields.length > 1
    · rw [if_pos h] at hf
      cases hf
      rfl
    · rw [if_neg h] at hf
      cases hf
  · intro hrel
    have hin : (jointObj o).onParentInserted =
        (if (mkCfg o).relatedListName.isSome then onParentInsertedRelated (mkCfg o)
         else onParentInsertedBase (mkCfg o)) := rfl
    rw [hin, hrel]
    simp

/-- Witness for C8 (amended): at the local-key-only configuration the hook is
exposed. -/
theorem C8_witness :
    (jointObj exOptionsKeyOnly).onParentUpdated.isSome = true :=
  (C8_onParentUpdated_exposure exOptionsKeyOnly (jointObj exOptionsKeyOnly) rfl).1.mpr
    (by decide)

/-- C3 counterexample: constructing with caller-supplied
`parentFields = ["name"]` leaves the caller's array as `["name", "id"]` —
the parent local key was pushed onto the aliased array (line 53), so
construction does mutate the caller-supplied options. -/
theorem C3_counterexample :
    (joint exOptions).map (fun j => j.finalParentFields) = .ok (some ["name", "id"]) ∧
    exOptions.parentFields = some ["name"] ∧
    (some ["name", "id"] : Option (List String)) ≠ some ["name"] :=
  ⟨rfl, rfl, by decide⟩

/-- C3 (amended): construction issues no collection operation and does not
touch the collections (it only reads their key-field getters), but it
mutates the caller's option arrays exactly as lines 53 and 112 push: the
caller's `parentFields` (when supplied) gains the parent local key at the
end — so it never equals its original value — and, when related-list
maintenance is active, `relatedListFields` likewise gains the child local
key. -/
theorem C3_construction_mutation (o : Options) (j : Joint) (hj : joint o = .ok j) :
    j.finalParentFields =
      o.parentFields.map (fun a => a ++ [o.parentCollection.getLocalKeyField]) ∧
    (o.parentFields.isSome = true → j.finalParentFields ≠ o.parentFields) ∧
    j.finalRelatedListFields =
      (if o.relatedActive then
        o.relatedListFields.map (fun a => a ++ [o.childCollection.getLocalKeyField])
       else o.relatedListFields) ∧
    (o.relatedActive = true → o.relatedListFields.isSome = true →
      j.finalRelatedListFields ≠ o.relatedListFields) := by
  have hjo := joint_ok_eq o j hj
  subst hjo
  refine ⟨rfl, ?_, rfl, ?_⟩
  · intro hsome heq
    cases hp : o.parentFields with
    | none => rw [hp] at hsome; cases hsome
    | some a =>
      have hfin : (jointObj o).finalParentFields =
          some (a ++ [o.parentCollection.getLocalKeyField]) := by
        show o.parentFields.map _ = _
        rw [hp]
        rfl
      rw [hfin, hp] at heq
      have h3 := congrArg List.length (Option.some.inj heq)
      simp at h3
  · intro hrel hsome heq
    cases hp : o.relatedListFields with
    | none => rw [hp] at hsome; cases hsome
    | some a =>
      have hfin : (jointObj o).finalRelatedListFields =
          some (a ++ [o.childCollection.getLocalKeyField]) := by
        show (if o.relatedActive then
            o.relatedListFields.map (fun a => a ++ [o.childCollection.getLocalKeyField])
          else o.relatedListFields) = _
        rw [hrel, hp]
        rfl
      rw [hfin, hp] at heq
      have h3 := congrArg List.length (Option.some.inj heq)
      simp at h3

/-- Witness for C3 (amended): the scenario configuration's `parentFields`
array is changed by construction. -/
theorem C3_witness :
    (jointObj exOptions).finalParentFields ≠ exOptions.parentFields :=
  (C3_construction_mutation exOptions (jointObj exOptions) rfl).2.1 rfl

/-- C2 counterexample: with related-list maintenance off, `onParentInserted`
issues the child-collection update and returns `undefined` (line 58-61 never
returns the promise) — even against a collection that rejects that very
update, the hook returns no asynchronous result at all, so the failure
cannot surface by rejecting it. -/
theorem C2_counterexample :
    (joint exOptionsNoList).map (fun j => j.onParentInserted envRejectUpdate exParent) =
      .ok ([.update .childCollection
              (.vObj [("parent", .vObj (extractNamedFields exParent ["name", "id"]))])
              (.vObj [("fk", .vStr "EXT-1")])], none) ∧
    envRejectUpdate.update .childCollection
      (.vObj [("parent", .vObj (extractNamedFields exParent ["name", "id"]))])
      (.vObj [("fk", .vStr "EXT-1")]) = .error "update failed" :=
  ⟨rfl, rfl⟩

/-- C2 (amended): failures of the operations issued by `enhanceCleanse`,
`enhancePrepare`, the child hooks, and the find/update chain of the
related-list `onParentInserted` surface by rejecting the hook's returned
asynchronous result; but the base `onParentInserted` (also exposed as
`onParentUpdated`) returns `undefined` — its child-collection update is
fire-and-forget — and the delegated `onParentUpdated` call inside the
redefined `onParentInserted` is not part of that hook's returned result,
whose settlement is exactly that of the find/update chain. -/
theorem C2_failure_propagation (o : Options) (j : Joint) (env : Env)
    (parent child record : Record) (action : Value)
    (cleanse : Option (Record → Record)) (prepare : Option (Record → Value → Record))
    (hj : joint o = .ok j) :
    ((mkCfg o).relatedListName.isSome = false →
      (j.onParentInserted env parent).2 = none) ∧
    (∀ f, j.onParentUpdated = some f → (f env parent).2 = none) ∧
    ((mkCfg o).relatedListName.isSome = true →
      ∀ env' : Env, env'.find = env.find →
        env'.update .parentCollection = env.update .parentCollection →
        (j.onParentInserted env' parent).2 = (j.onParentInserted env parent).2) ∧
    ((mkCfg o).relatedListName.isSome = true → ∀ e,
      env.find .childCollection
        (.vObj [((mkCfg o).lookupField, getField parent (mkCfg o).parentKeyField)]) =
        .error e →
      (j.onParentInserted env parent).2 = some (.error e)) ∧
    ((mkCfg o).relatedListName.isSome = true → ∀ recs e,
      env.find .childCollection
        (.vObj [((mkCfg o).lookupField, getField parent (mkCfg o).parentKeyField)]) =
        .ok recs →
      recs ≠ [] →
      env.update .parentCollection
        (.vObj [((mkCfg o).relatedListName.getD "",
          .vArr (recs.map fun r => .vObj (extractNamedFields r (mkCfg o).relatedListFields)))])
        (.vObj [((mkCfg o).parentKeyField, getField parent (mkCfg o).parentKeyField)]) =
        .error e →
      (j.onParentInserted env parent).2 = some (.error e)) ∧
    (∀ f, j.onChildInserted = some f → (opGet child (mkCfg o).lookupField).truthy = true →
      (f env child).2 = some (env.addOrUpdateChildInCollection .parentCollection
        (.vObj [((mkCfg o).parentKeyField, opGet child (mkCfg o).lookupField)])
        ((mkCfg o).relatedListName.getD "")
        (.vObj (extractNamedFields child (mkCfg o).relatedListFields))
        (mkCfg o).childLocalKeyField)) ∧
    (∀ f, j.onChildRemoved = some f → (opGet child (mkCfg o).lookupField).truthy = true →
      (f env child).2 = some (env.removeChildFromCollection .parentCollection
        (.vObj [((mkCfg o).parentKeyField, opGet child (mkCfg o).lookupField)])
        ((mkCfg o).relatedListName.getD "")
        (.vObj [((mkCfg o).childLocalKeyField, getField child (mkCfg o).childLocalKeyField)]))) ∧
    ((opGet (cleansedOf cleanse record) (mkCfg o).lookupField).truthy = true → ∀ e,
      env.get .parentCollection
        (.vObj [((mkCfg o).parentKeyField,
          opGet (cleansedOf cleanse record) (mkCfg o).lookupField)]) = .error e →
      (j.enhanceCleanse cleanse env record).2 = .error e) ∧
    ((getField (preparedOf prepare record action) (mkCfg o).parentFieldName).truthy = true →
      (vGet (getField (preparedOf prepare record action) (mkCfg o).parentFieldName)
        (mkCfg o).parentKeyField).truthy = false → ∀ e,
      env.get .parentCollection
        (vGet (getField (preparedOf prepare record action) (mkCfg o).parentFieldName)
          (mkCfg o).parentLocalKeyField) = .error e →
      (j.enhancePrepare prepare env record action).2 = .error e) := by
  have hjo := joint_ok_eq o j hj
  subst hjo
  have hin : (jointObj o).onParentInserted =
      (if (mkCfg o).relatedListName.isSome then onParentInsertedRelated (mkCfg o)
       else onParentInsertedBase (mkCfg o)) := rfl
  refine ⟨?_, ?_, ?_, ?_, ?_, ?_, ?_, ?_, ?_⟩
  · intro hrel
    rw [hin, hrel]
    simp only [Bool.false_eq_true, if_false]
    rfl
  · intro f hf
    have hup : (jointObj o).onParentUpdated =
        (if (mkCfg o).parentFields.length > 1 then some (onParentInsertedBase (mkCfg o))
         else none) := rfl
    rw [hup] at hf
    by_cases h : (mkCfg o).parentFields.length > 1
    · rw [if_pos h] at hf
      cases hf
      rfl
    · rw [if_neg h] at hf
      cases hf
  · intro hrel env' hfind hupd
    rw [hin, hrel]
    simp only [if_true]
    unfold onParentInsertedRelated
    rw [hfind, hupd]
    dsimp only
    cases hf : env.find Coll.childCollection
        (.vObj [((mkCfg o).lookupField, getField parent (mkCfg o).parentKeyField)]) with
    | error e => rfl
    | ok recs =>
      by_cases hr : recs.length > 0
      · simp [hr]
      · simp [hr]
  · intro hrel e hf
    rw [hin, hrel]
    simp only [if_true]
    unfold onParentInsertedRelated
    dsimp only
    rw [hf]
  · intro hrel recs e hf hne hupd
    rw [hin, hrel]
    simp only [if_true]
    unfold onParentInsertedRelated
    dsimp only
    rw [hf]
    have hr : recs.length > 0 := List.length_pos.mpr hne
    simp only [hr, if_true, hupd]
  · intro f hf ht
    have he : (jointObj o).onChildInserted =
        (if (mkCfg o).relatedListName.isSome then some (onChildInsertedFn (mkCfg o))
         else none) := rfl
    rw [he] at hf
    by_cases hrel : (mkCfg o).relatedListName.isSome
    · rw [if_pos hrel] at hf
      cases hf
      unfold onChildInsertedFn
      simp only [ht, if_true]
    · rw [if_neg hrel] at hf
      cases hf
  · intro f hf ht
    have he : (jointObj o).onChildRemoved =
        (if (mkCfg o).relatedListName.isSome then some (onChildRemovedFn (mkCfg o))
         else none) := rfl
    rw [he] at hf
    by_cases hrel : (mkCfg o).relatedListName.isSome
    · rw [if_pos hrel] at hf
      cases hf
      unfold onChildRemovedFn
      simp only [ht, if_true]
    · rw [if_neg hrel] at hf
      cases hf
  · intro ht e hg
    have he : (jointObj o).enhanceCleanse cleanse env record =
        enhanceCleanseFn (mkCfg o) env cleanse record := rfl
    rw [he]
    unfold enhanceCleanseFn
    simp only [ht, Bool.not_true, Bool.false_eq_true, if_false, hg]
  · intro h1 h2 e hg
    have he : (jointObj o).enhancePrepare prepare env record action =
        enhancePrepareFn (mkCfg o) env prepare record action := rfl
    rw [he]
    unfold enhancePrepareFn
    simp only [h1, Bool.not_true, Bool.false_eq_true, if_false, h2, hg]

/-- Witness for C2 (amended): the base hook's returned result is `none` at the
scenario configuration even with a rejecting collection, and a rejecting
point lookup rejects the enhanced cleanse. -/
theorem C2_witness :
    ((jointObj exOptionsNoList).onParentInserted envRejectUpdate exParent).2 = none ∧
    ((jointObj exOptions).enhanceCleanse none envGetReject exChild).2 =
      .error "get failed" :=
  ⟨(C2_failure_propagation exOptionsNoList (jointObj exOptionsNoList) envRejectUpdate
      exParent exChild exChild .vNull none none rfl).1 rfl,
   (C2_failure_propagation exOptions (jointObj exOptions) envGetReject
      exParent exChild exChild .vNull none none rfl).2.2.2.2.2.2.2.1 rfl "get failed" rfl⟩

/-- C1 counterexample: at the scenario configuration, with one child found,
the redefined `onParentInserted` issues
`parentCollection.update({subs: children}, {extId: "EXT-1"})` — under the §6
interface `update(matchCriteria, fieldsToSet)` its match criteria is the
related-list assignment and its fields-to-set the external-key field, the
reverse of the claim; the update the claim describes (match criteria
`{extId: "EXT-1"}`, fields-to-set the related list) is never issued. -/
theorem C1_counterexample :
    (joint exOptions).map (fun j => (j.onParentInserted envFindChild exParent).1) =
      .ok [.update .childCollection
              (.vObj [("parent", .vObj (extractNamedFields exParent ["name", "id"]))])
              (.vObj [("fk", .vStr "EXT-1")]),
           .find .childCollection (.vObj [("fk", .vStr "EXT-1")]),
           .update .parentCollection
              (.vObj [("subs", .vArr [.vObj (extractNamedFields exChild ["label", "cid"])])])
              (.vObj [("extId", .vStr "EXT-1")])] ∧
    Op.update .parentCollection (.vObj [("extId", .vStr "EXT-1")])
        (.vObj [("subs", .vArr [.vObj (extractNamedFields exChild ["label", "cid"])])]) ∉
      [Op.update .childCollection
          (.vObj [("parent", .vObj (extractNamedFields exParent ["name", "id"]))])
          (.vObj [("fk", .vStr "EXT-1")]),
       Op.find .childCollection (.vObj [("fk", .vStr "EXT-1")]),
       Op.update .parentCollection
          (.vObj [("subs", .vArr [.vObj (extractNamedFields exChild ["label", "cid"])])])
          (.vObj [("extId", .vStr "EXT-1")])] := by
  refine ⟨rfl, ?_⟩
  simp

/-- C1 (amended): when related-list maintenance is configured,
`onParentInserted` queries the child collection for all children whose
`lookupField` equals the parent's external key and, exactly when the result
set is non-empty, issues one update to the parent collection carrying the
extracted child summaries — but with the related-list assignment
`{relatedListName: summaries}` as the update's first argument and the
external-key criteria `{parentKeyField: key}` as its second, i.e. with the
two roles swapped relative to the §6 signature
`update(matchCriteria, fieldsToSet)` the claim cites. -/
theorem C1_related_resync (o : Options) (j : Joint) (env : Env) (parent : Record)
    (recs : List Record)
    (hj : joint o = .ok j) (hrel : (mkCfg o).relatedListName.isSome = true)
    (hfind : env.find .childCollection
        (.vObj [((mkCfg o).lookupField, getField parent (mkCfg o).parentKeyField)]) =
        .ok recs) :
    Op.find .childCollection
        (.vObj [((mkCfg o).lookupField, getField parent (mkCfg o).parentKeyField)]) ∈
      (j.onParentInserted env parent).1 ∧
    (Op.update .parentCollection
        (.vObj [((mkCfg o).relatedListName.getD "",
          .vArr (recs.map fun r => .vObj (extractNamedFields r (mkCfg o).relatedListFields)))])
        (.vObj [((mkCfg o).parentKeyField, getField parent (mkCfg o).parentKeyField)]) ∈
      (j.onParentInserted env parent).1 ↔ recs ≠ []) ∧
    (∀ m s, Op.update .parentCollection m s ∈ (j.onParentInserted env parent).1 →
      m = .vObj [((mkCfg o).relatedListName.getD "",
            .vArr (recs.map fun r => .vObj (extractNamedFields r (mkCfg o).relatedListFields)))] ∧
      s = .vObj [((mkCfg o).parentKeyField, getField parent (mkCfg o).parentKeyField)]) := by
  have hjo := joint_ok_eq o j hj
  subst hjo
  have hnotdel : ∀ m s, Op.update Coll.parentCollection m s ∉
      (if (mkCfg o).parentFields.length > 1
       then (onParentInsertedBase (mkCfg o) env parent).1 else []) := by
    intro m s
    by_cases hd : (mkCfg o).parentFields.length > 1
    · rw [if_pos hd]
      unfold onParentInsertedBase
      simp
    · rw [if_neg hd]
      simp
  have hin : (jointObj o).onParentInserted = onParentInsertedRelated (mkCfg o) := by
    show (if (mkCfg o).relatedListName.isSome then onParentInsertedRelated (mkCfg o)
      else onParentInsertedBase (mkCfg o)) = _
    rw [hrel]
    simp
  rw [hin]
  unfold onParentInsertedRelated
  dsimp only
  rw [hfind]
  by_cases hr : recs.length > 0
  · simp only [if_pos hr]
    refine ⟨by simp, ?_, ?_⟩
    · have hne : recs ≠ [] := List.length_pos.mp hr
      simp [hne]
    · intro m s hm
      rcases List.mem_append.mp hm with hd | ht
      · exact absurd hd (hnotdel m s)
      · simp only [List.mem_cons, List.not_mem_nil, or_false] at ht
        rcases ht with h1 | h2
        · cases h1
        · injection h2 with hc hm2 hs2
          exact ⟨hm2, hs2⟩
  · simp only [if_neg hr]
    have hnil : recs = [] := by
      cases recs with
      | nil => rfl
      | cons a l => exact absurd (by simp) hr
    refine ⟨by simp, ?_, ?_⟩
    · refine iff_of_false ?_ (by simp [hnil])
      intro hmem
      rcases List.mem_append.mp hmem with hd | ht
      · exact absurd hd (hnotdel _ _)
      · simp at ht
    · intro m s hm
      rcases List.mem_append.mp hm with hd | ht
      · exact absurd hd (hnotdel m s)
      · simp at ht

/-- Witness for C1 (amended): the child-by-foreign-key query is among the
operations the scenario run issues. -/
theorem C1_witness :
    Op.find .childCollection (.vObj [("fk", .vStr "EXT-1")]) ∈
      ((jointObj exOptions).onParentInserted envFindChild exParent).1 :=
  (C1_related_resync exOptions (jointObj exOptions) envFindChild exParent [exChild]
    rfl rfl rfl).1

end AqueductJoint
